import Mathlib

/-!
Shallow embedding of the Unreal log viewer engine (`src/main.cpp`):
the ingestion parser (`LogViewerState::LoadFile`), the filter/view engine
(`LogViewerState::ApplyFilters`), and the context-window computation from
`RenderLogViewer`.  Strings are modelled as lists of characters; the
C++ `std::hash<std::string>` is modelled by a deterministic 64-bit
polynomial string hash (the spec states that exact hash values are not a
compatibility requirement, only determinism within a run).
-/

namespace UnrealLogsReader

/-- Strings from the C++ code, modelled as lists of characters. -/
abbrev Str := List Char

/-- `::tolower` on one ASCII character. -/
def lowerChar (c : Char) : Char :=
  if 'A' ≤ c ∧ c ≤ 'Z' then Char.ofNat (c.toNat + 32) else c

/-- `std::ranges::transform(s, s.begin(), ::tolower)`. -/
def toLowerStr (s : Str) : Str := s.map lowerChar

/-- Scan of `s` for the first occurrence of `pat`, reporting the absolute
position; `i` is the position of the head of `s` in the original string.
Models `std::string::find`. -/
def findSubstrFrom (pat : Str) : Str → Nat → Option Nat
  | [], i => if pat.isPrefixOf ([] : Str) then some i else none
  | c :: rest, i =>
    if pat.isPrefixOf (c :: rest) then some i
    else findSubstrFrom pat rest (i + 1)

/-- `line.find(pat)` : position of the first occurrence, `none` for `npos`. -/
def findSubstr (s pat : Str) : Option Nat := findSubstrFrom pat s 0

/-- `line.find(pat) != std::string::npos`. -/
def containsSubstr (s pat : Str) : Bool := (findSubstr s pat).isSome

/-- `line.find(c, start)` : first occurrence of character `c` at or after
position `start`. -/
def findCharFrom (s : Str) (c : Char) (start : Nat) : Option Nat :=
  findSubstrFrom [c] (s.drop start) start

/-- Deterministic 64-bit string hash modelling `std::hash<std::string>`. -/
def hashStr (s : Str) : Nat :=
  s.foldl (fun h c => (h * 1099511628211 + c.toNat) % 2 ^ 64) 14695981039346656037

/-- `enum class LogLevel { Display, Warning, Error }`. -/
inductive LogLevel
  | Display
  | Warning
  | Error
deriving DecidableEq, BEq, Repr

/-- `struct LogEntry`. -/
structure LogEntry where
  FullText : Str
  Category : Str
  Level : LogLevel
  ContentHash : Nat
  IsHeader : Bool
  LogIndex : Nat
deriving DecidableEq, Repr

/-- The filter criteria fields of `LogViewerState`. -/
structure FilterState where
  ShowErrors : Bool
  ShowWarnings : Bool
  ShowDisplay : Bool
  SearchBuffer : Str
  SelectedCategory : Str
  ShowDuplicates : Bool
deriving DecidableEq, Repr

/-- `struct LogViewerState` (filter criteria grouped in `filters`). -/
structure LogViewerState where
  AllLogs : List LogEntry
  FilteredIndices : List Nat
  LevelsCount : LogLevel → Nat
  SelectedIndices : Finset Nat
  LastClickedIndex : Int
  filters : FilterState
  UniqueCategories : Finset Str

/-- The `"All"` category sentinel. -/
def allCat : Str := "All".toList

/-- The `"General"` default category. -/
def generalCat : Str := "General".toList

/-- Severity detection on a header line (`LoadFile`, case-sensitive
substring checks in fixed order). -/
def detectLevel (line : Str) : LogLevel :=
  if containsSubstr line ("Error:".toList)
      ∨ containsSubstr line ("Critical:".toList)
      ∨ containsSubstr line ("Fatal:".toList) then
    LogLevel.Error
  else if containsSubstr line ("Warning:".toList) then
    LogLevel.Warning
  else
    LogLevel.Display

/-- Category detection on a header line (`LoadFile`): first occurrence of
`"Log"`, accepted only when preceded by `]`, space or `:`, and only when a
`:` follows; otherwise `"General"`. -/
def detectCategory (line : Str) : Str :=
  match findSubstr line ("Log".toList) with
  | none => generalCat
  | some catStart =>
    if catStart > 0 ∧ (line.get? (catStart - 1) = some ']'
        ∨ line.get? (catStart - 1) = some ' '
        ∨ line.get? (catStart - 1) = some ':') then
      match findCharFrom line ':' catStart with
      | some catEnd => (line.drop catStart).take (catEnd - catStart)
      | none => generalCat
    else generalCat

/-- Fingerprint of a header line (`LoadFile`): hash from the first
occurrence of `"Log"` when found, otherwise hash of the whole line. -/
def headerHash (line : Str) : Nat :=
  match findSubstr line ("Log".toList) with
  | some catStart => hashStr (line.drop catStart)
  | none => hashStr line

/-- `line.find("Warning/Error Summary") != npos`. -/
def containsSummary (line : Str) : Bool :=
  containsSubstr line ("Warning/Error Summary".toList)

/-- The lines before the first line containing the summary marker. -/
def preSummary : List Str → List Str
  | [] => []
  | l :: rest => if containsSummary l then [] else l :: preSummary rest

/-- The fixed visual indent prepended to continuation lines. -/
def indentMarker : Str := "      ".toList

/-- The ingestion loop of `LoadFile`: `curLvl`/`curCat` is the current
header context, `idx` the next `LogIndex` (`CurrentIndex + 1`). -/
def parseLinesAux : List Str → LogLevel → Str → Nat → List LogEntry
  | [], _, _, _ => []
  | line :: rest, curLvl, curCat, idx =>
    if containsSummary line then []
    else if line = [] then parseLinesAux rest curLvl curCat idx
    else if line.head? = some '[' then
      let lvl := detectLevel line
      let cat := detectCategory line
      { FullText := line, Category := cat, Level := lvl,
        ContentHash := headerHash line, IsHeader := true, LogIndex := idx }
        :: parseLinesAux rest lvl cat (idx + 1)
    else
      { FullText := indentMarker ++ line, Category := curCat, Level := curLvl,
        ContentHash := 0, IsHeader := false, LogIndex := idx }
        :: parseLinesAux rest curLvl curCat (idx + 1)

/-- `parse(rawText) -> sequence<LogRecord>`: the record sequence produced
by `LoadFile` from the file's lines. -/
def parseLines (lines : List Str) : List LogEntry :=
  parseLinesAux lines LogLevel.Display generalCat 0

/-- How many produced records carry severity `lvl`
(the effect of the `LevelsCount[entry.Level]++` increments). -/
def countLevels (entries : List LogEntry) (lvl : LogLevel) : Nat :=
  (entries.filter (fun e => e.Level == lvl)).length

/-- The cascade of standard filters in `ApplyFilters` (severity toggles,
category, lower-cased search) applied to one record. -/
def passesFilters (showErr showWarn showDisp : Bool) (selCat search : Str)
    (e : LogEntry) : Bool :=
  if e.Level = LogLevel.Error ∧ showErr = false then false
  else if e.Level = LogLevel.Warning ∧ showWarn = false then false
  else if e.Level = LogLevel.Display ∧ showDisp = false then false
  else if selCat ≠ allCat ∧ e.Category ≠ selCat then false
  else if search ≠ [] ∧ containsSubstr (toLowerStr e.FullText) search = false then false
  else true

/-- The main loop of `ApplyFilters`: `i` is the loop index, `seen` the set
of already-seen header fingerprints, `skipping` the duplicate-block flag.
The branches spell out the loop body: a header whose fingerprint was
already seen (with `ShowDuplicates` off) starts a skipped block; any other
header stops skipping, records its fingerprint and runs the standard
filters; a continuation inherits the skip flag. -/
def computeViewAux (showErr showWarn showDisp : Bool) (selCat search : Str)
    (showDup : Bool) :
    List LogEntry → Nat → Finset Nat → Bool → List Nat
  | [], _, _, _ => []
  | e :: rest, i, seen, skipping =>
    if e.IsHeader then
      if showDup = false ∧ e.ContentHash ∈ seen then
        computeViewAux showErr showWarn showDisp selCat search showDup rest (i + 1) seen true
      else if passesFilters showErr showWarn showDisp selCat search e then
        i :: computeViewAux showErr showWarn showDisp selCat search showDup rest (i + 1)
          (insert e.ContentHash seen) false
      else
        computeViewAux showErr showWarn showDisp selCat search showDup rest (i + 1)
          (insert e.ContentHash seen) false
    else
      if skipping then
        computeViewAux showErr showWarn showDisp selCat search showDup rest (i + 1) seen skipping
      else if passesFilters showErr showWarn showDisp selCat search e then
        i :: computeViewAux showErr showWarn showDisp selCat search showDup rest (i + 1) seen skipping
      else
        computeViewAux showErr showWarn showDisp selCat search showDup rest (i + 1) seen skipping

/-- `computeView(records, filterState)`: the body of `ApplyFilters` as a
pure function; the search string is lower-cased once before the loop. -/
def computeView (logs : List LogEntry) (fs : FilterState) : List Nat :=
  computeViewAux fs.ShowErrors fs.ShowWarnings fs.ShowDisplay
    fs.SelectedCategory (toLowerStr fs.SearchBuffer) fs.ShowDuplicates
    logs 0 ∅ false

/-- `LogViewerState::ApplyFilters`: recompute `FilteredIndices`, clear the
selection and the click anchor. -/
def applyFilters (s : LogViewerState) : LogViewerState :=
  { s with FilteredIndices := computeView s.AllLogs s.filters,
           SelectedIndices := ∅, LastClickedIndex := -1 }

/-- `LogViewerState::LoadFile`: `content` is `none` when the file cannot
be opened (`!file.is_open()` early return), otherwise the file's lines. -/
def loadFile (s : LogViewerState) (content : Option (List Str)) : LogViewerState :=
  let s1 := { s with AllLogs := ([] : List LogEntry),
                     UniqueCategories := ({allCat} : Finset Str) }
  match content with
  | none => s1
  | some ls =>
    let entries := parseLines ls
    applyFilters { s1 with
      AllLogs := entries,
      LevelsCount := fun lvl => s.LevelsCount lvl + countLevels entries lvl,
      UniqueCategories := insert allCat (entries.map (fun e => e.Category)).toFinset }

/-- The default-constructed `LogViewerState` (global `g_LogState`). -/
def initState : LogViewerState :=
  { AllLogs := [], FilteredIndices := [], LevelsCount := fun _ => 0,
    SelectedIndices := ∅, LastClickedIndex := -1,
    filters := { ShowErrors := true, ShowWarnings := true, ShowDisplay := true,
                 SearchBuffer := [], SelectedCategory := allCat,
                 ShowDuplicates := true },
    UniqueCategories := ∅ }

/-- The raw indices displayed by the context window of `RenderLogViewer`
for focus index `f` in a file of `n` records:
`for (i = max(0, f-5); i < min(n, f+6); ++i)`. -/
def contextIndices (n f : Nat) : List Nat :=
  List.range' (f - 5) (min n (f + 6) - (f - 5))

/-! ### Specification-side predicates for duplicate suppression

These follow the spec's description of the duplicate-suppression pass
(a header is skipped when an earlier header carries the same fingerprint;
a continuation inherits the skip state of the nearest preceding header);
the characterization theorem below relates them to `computeView`. -/

/-- Index of the nearest header record strictly before position `i`. -/
def prevHeaderIdx (logs : List LogEntry) : Nat → Option Nat
  | 0 => none
  | j + 1 =>
    match logs[j]? with
    | some e => if e.IsHeader then some j else prevHeaderIdx logs j
    | none => prevHeaderIdx logs j

/-- The fingerprint at position `j` when it holds a header record. -/
def headerHashAt (logs : List LogEntry) (j : Nat) : Option Nat :=
  match logs[j]? with
  | some e => if e.IsHeader then some e.ContentHash else none
  | none => none

/-- Position `i` holds a header whose fingerprint already occurred on an
earlier header. -/
def isDupHeader (logs : List LogEntry) (i : Nat) : Bool :=
  match logs[i]? with
  | some e =>
    e.IsHeader && (List.range i).any (fun j => headerHashAt logs j == some e.ContentHash)
  | none => false

/-- The skip state that the duplicate-suppression pass is in when it
reaches position `k`: set iff the nearest preceding header is a
duplicate. -/
def contSkip (logs : List LogEntry) (k : Nat) : Bool :=
  match prevHeaderIdx logs k with
  | none => false
  | some h => isDupHeader logs h

/-- The record at position `i` is excluded by duplicate suppression:
either a duplicate header, or a continuation of one. -/
def dupSkippedSpec (logs : List LogEntry) (i : Nat) : Bool :=
  match logs[i]? with
  | none => false
  | some e =>
    if e.IsHeader then isDupHeader logs i
    else contSkip logs i

/-- The standard filters evaluated at position `i`. -/
def passAt (showErr showWarn showDisp : Bool) (selCat search : Str)
    (logs : List LogEntry) (i : Nat) : Bool :=
  match logs[i]? with
  | some e => passesFilters showErr showWarn showDisp selCat search e
  | none => false

/-- The per-index predicate that characterizes the `ApplyFilters` loop:
not excluded by duplicate suppression, and passing the standard filters. -/
def keepIdx (showErr showWarn showDisp : Bool) (selCat search : Str)
    (showDup : Bool) (logs : List LogEntry) (i : Nat) : Bool :=
  !(!showDup && dupSkippedSpec logs i)
    && passAt showErr showWarn showDisp selCat search logs i

theorem contSkip_succ_header {logs : List LogEntry} {k : Nat} {e : LogEntry}
    (hget : logs[k]? = some e) (he : e.IsHeader = true) :
    contSkip logs (k + 1) = isDupHeader logs k := by
  simp [contSkip, prevHeaderIdx, hget, he]

theorem contSkip_succ_cont {logs : List LogEntry} {k : Nat} {e : LogEntry}
    (hget : logs[k]? = some e) (he : e.IsHeader = false) :
    contSkip logs (k + 1) = contSkip logs k := by
  simp [contSkip, prevHeaderIdx, hget, he]

theorem headerHashAt_header {logs : List LogEntry} {k : Nat} {e : LogEntry}
    (hget : logs[k]? = some e) (he : e.IsHeader = true) :
    headerHashAt logs k = some e.ContentHash := by
  simp [headerHashAt, hget, he]

theorem headerHashAt_cont {logs : List LogEntry} {k : Nat} {e : LogEntry}
    (hget : logs[k]? = some e) (he : e.IsHeader = false) :
    headerHashAt logs k = none := by
  simp [headerHashAt, hget, he]

theorem isDupHeader_iff {logs : List LogEntry} {k : Nat} {e : LogEntry}
    (hget : logs[k]? = some e) (he : e.IsHeader = true) :
    isDupHeader logs k = true
      ↔ ∃ j, j < k ∧ headerHashAt logs j = some e.ContentHash := by
  simp [isDupHeader, hget, he, List.any_eq_true, List.mem_range]

/-- The `ApplyFilters` loop, started at position `k` with a seen-set and a
skip flag consistent with the records before `k`, selects exactly the
positions from `k` on that satisfy `keepIdx`. -/
theorem computeViewAux_characterization
    (showErr showWarn showDisp : Bool) (selCat search : Str) (showDup : Bool)
    (logs : List LogEntry) :
    ∀ (suf : List LogEntry) (k : Nat) (seen : Finset Nat) (skipping : Bool),
      logs.drop k = suf →
      (∀ h, h ∈ seen ↔ ∃ j, j < k ∧ headerHashAt logs j = some h) →
      skipping = (!showDup && contSkip logs k) →
      computeViewAux showErr showWarn showDisp selCat search showDup suf k seen skipping
        = (List.range' k (logs.length - k)).filter
            (keepIdx showErr showWarn showDisp selCat search showDup logs) := by
  intro suf
  induction suf with
  | nil =>
    intro k seen skipping hdrop _ _
    have hlen : logs.length - k = 0 := by
      have h := congrArg List.length hdrop
      simpa using h
    simp [computeViewAux, hlen]
  | cons e rest ih =>
    intro k seen skipping hdrop hseen hskip
    have hget : logs[k]? = some e := by
      have h0 : (logs.drop k)[0]? = some e := by rw [hdrop]; simp
      rw [List.getElem?_drop] at h0
      simpa using h0
    have hk : k < logs.length := by
      rcases List.getElem?_eq_some.mp hget with ⟨h, _⟩
      exact h
    have hdrop2 : logs.drop (k + 1) = rest := by
      have ht := List.tail_drop logs k
      rw [hdrop] at ht
      exact ht.symm
    have hlen : logs.length - k = (logs.length - (k + 1)) + 1 := by omega
    rw [hlen, List.range'_succ, List.filter_cons]
    cases he : e.IsHeader with
    | true =>
      by_cases hdup : showDup = false ∧ e.ContentHash ∈ seen
      · -- duplicate header: block is skipped
        have hdupHdr : isDupHeader logs k = true :=
          (isDupHeader_iff hget he).mpr ((hseen _).mp hdup.2)
        have hkeep : keepIdx showErr showWarn showDisp selCat search showDup logs k = false := by
          simp [keepIdx, dupSkippedSpec, hget, he, hdupHdr, hdup.1]
        have hseen2 : ∀ h, h ∈ seen ↔ ∃ j, j < k + 1 ∧ headerHashAt logs j = some h := by
          intro h
          constructor
          · intro hmem
            rcases (hseen h).mp hmem with ⟨j, hj, hh⟩
            exact ⟨j, by omega, hh⟩
          · rintro ⟨j, hj, hh⟩
            by_cases hjk : j < k
            · exact (hseen h).mpr ⟨j, hjk, hh⟩
            · have : j = k := by omega
              subst this
              rw [headerHashAt_header hget he] at hh
              have : h = e.ContentHash := by injection hh.symm
              rw [this]
              exact hdup.2
        have hskip2 : true = (!showDup && contSkip logs (k + 1)) := by
          rw [contSkip_succ_header hget he, hdupHdr, hdup.1]
          rfl
        rw [hkeep]
        simp only [computeViewAux, he, if_pos hdup, if_true]
        exact ih (k + 1) seen true hdrop2 hseen2 hskip2
      · -- fresh header: stop skipping, record the fingerprint
        have hnotdup : (showDup = false) → isDupHeader logs k = false := by
          intro hsd
          rcases Bool.eq_false_or_eq_true (isDupHeader logs k) with hf | ht
          · exfalso
            rcases (isDupHeader_iff hget he).mp hf with ⟨j, hj, hh⟩
            exact hdup ⟨hsd, (hseen _).mpr ⟨j, hj, hh⟩⟩
          · exact ht
        have hnd : (!showDup && dupSkippedSpec logs k) = false := by
          cases hsd : showDup with
          | true => rfl
          | false => simp [dupSkippedSpec, hget, he, hnotdup hsd]
        have hkeep : keepIdx showErr showWarn showDisp selCat search showDup logs k
            = passesFilters showErr showWarn showDisp selCat search e := by
          simp [keepIdx, hnd, passAt, hget]
        have hseen2 : ∀ h, h ∈ insert e.ContentHash seen
            ↔ ∃ j, j < k + 1 ∧ headerHashAt logs j = some h := by
          intro h
          rw [Finset.mem_insert]
          constructor
          · rintro (rfl | hmem)
            · exact ⟨k, by omega, headerHashAt_header hget he⟩
            · rcases (hseen h).mp hmem with ⟨j, hj, hh⟩
              exact ⟨j, by omega, hh⟩
          · rintro ⟨j, hj, hh⟩
            by_cases hjk : j < k
            · exact Or.inr ((hseen h).mpr ⟨j, hjk, hh⟩)
            · have : j = k := by omega
              subst this
              rw [headerHashAt_header hget he] at hh
              exact Or.inl (by injection hh.symm)
        have hskip2 : false = (!showDup && contSkip logs (k + 1)) := by
          rw [contSkip_succ_header hget he]
          cases hsd : showDup with
          | true => rfl
          | false => rw [hnotdup hsd]; rfl
        simp only [computeViewAux, he, if_neg hdup, hkeep]
        by_cases hpass : passesFilters showErr showWarn showDisp selCat search e = true
        · rw [hpass]
          simp only [if_true]
          rw [ih (k + 1) (insert e.ContentHash seen) false hdrop2 hseen2 hskip2]
        · rw [Bool.eq_false_iff.mpr hpass]
          simp only [if_false, Bool.false_eq_true]
          rw [ih (k + 1) (insert e.ContentHash seen) false hdrop2 hseen2 hskip2]
          simp
    | false =>
      have hseen2 : ∀ h, h ∈ seen ↔ ∃ j, j < k + 1 ∧ headerHashAt logs j = some h := by
        intro h
        constructor
        · intro hmem
          rcases (hseen h).mp hmem with ⟨j, hj, hh⟩
          exact ⟨j, by omega, hh⟩
        · rintro ⟨j, hj, hh⟩
          by_cases hjk : j < k
          · exact (hseen h).mpr ⟨j, hjk, hh⟩
          · have : j = k := by omega
            subst this
            rw [headerHashAt_cont hget he] at hh
            exact absurd hh (by simp)
      have hskip2 : skipping = (!showDup && contSkip logs (k + 1)) := by
        rw [contSkip_succ_cont hget he]
        exact hskip
      have hspec : dupSkippedSpec logs k = contSkip logs k := by
        simp [dupSkippedSpec, hget, he]
      have hkeep : keepIdx showErr showWarn showDisp selCat search showDup logs k
          = (!skipping && passesFilters showErr showWarn showDisp selCat search e) := by
        simp [keepIdx, hspec, passAt, hget, hskip]
      cases hsk : skipping with
      | true =>
        have : keepIdx showErr showWarn showDisp selCat search showDup logs k = false := by
          rw [hkeep, hsk]; rfl
        rw [this]
        simp only [computeViewAux, he, hsk, if_true, Bool.false_eq_true, if_false]
        exact ih (k + 1) seen true hdrop2 hseen2 (hsk ▸ hskip2)
      | false =>
        have hkeep2 : keepIdx showErr showWarn showDisp selCat search showDup logs k
            = passesFilters showErr showWarn showDisp selCat search e := by
          rw [hkeep, hsk]
          simp
        simp only [computeViewAux, he, hsk, Bool.false_eq_true, if_false, hkeep2]
        by_cases hpass : passesFilters showErr showWarn showDisp selCat search e = true
        · rw [hpass]
          simp only [if_true]
          rw [ih (k + 1) seen false hdrop2 hseen2 (hsk ▸ hskip2)]
        · rw [Bool.eq_false_iff.mpr hpass]
          simp only [if_false, Bool.false_eq_true]
          rw [ih (k + 1) seen false hdrop2 hseen2 (hsk ▸ hskip2)]

/-- `computeView` is the filter of the index range by `keepIdx`. -/
theorem computeView_eq_filter (logs : List LogEntry) (fs : FilterState) :
    computeView logs fs
      = (List.range logs.length).filter
          (keepIdx fs.ShowErrors fs.ShowWarnings fs.ShowDisplay
            fs.SelectedCategory (toLowerStr fs.SearchBuffer) fs.ShowDuplicates logs) := by
  rw [computeView, List.range_eq_range']
  have h := computeViewAux_characterization fs.ShowErrors fs.ShowWarnings fs.ShowDisplay
    fs.SelectedCategory (toLowerStr fs.SearchBuffer) fs.ShowDuplicates logs
    logs 0 ∅ false (by simp) (by simp) (by simp [contSkip, prevHeaderIdx])
  simpa using h

/-! ### Parser lemmas -/

/-- The ingestion loop never reads anything past the first line containing
the summary marker. -/
theorem parseLinesAux_preSummary (lines : List Str) :
    ∀ (lvl : LogLevel) (cat : Str) (idx : Nat),
      parseLinesAux (preSummary lines) lvl cat idx = parseLinesAux lines lvl cat idx := by
  induction lines with
  | nil => intro lvl cat idx; rfl
  | cons l rest ih =>
    intro lvl cat idx
    by_cases hsum : containsSummary l = true
    · simp [preSummary, hsum, parseLinesAux]
    · have hsum2 : containsSummary l = false := Bool.eq_false_iff.mpr hsum
      by_cases hemp : l = ([] : Str)
      · simp [preSummary, hsum2, parseLinesAux, hemp, ih]
      · by_cases hhd : l.head? = some '['
        · simp [preSummary, hsum2, parseLinesAux, hemp, hhd, ih]
        · simp [preSummary, hsum2, parseLinesAux, hemp, hhd, ih]

/-- The `LogIndex` values produced from start index `idx` are the
contiguous range `idx, idx+1, ...` over the kept lines. -/
theorem parseLinesAux_map_index (lines : List Str) :
    ∀ (lvl : LogLevel) (cat : Str) (idx : Nat),
      (parseLinesAux lines lvl cat idx).map (fun e => e.LogIndex)
        = List.range' idx ((preSummary lines).filter (fun l => !l.isEmpty)).length := by
  induction lines with
  | nil => intro lvl cat idx; rfl
  | cons l rest ih =>
    intro lvl cat idx
    by_cases hsum : containsSummary l = true
    · simp [preSummary, hsum, parseLinesAux]
    · have hsum2 : containsSummary l = false := Bool.eq_false_iff.mpr hsum
      by_cases hemp : l = ([] : Str)
      · subst hemp
        simp [preSummary, hsum2, parseLinesAux, ih]
      · have hemp2 : l.isEmpty = false := by
          cases l with
          | nil => exact absurd rfl hemp
          | cons c cs => rfl
        by_cases hhd : l.head? = some '['
        · simp [preSummary, hsum2, parseLinesAux, hemp, hhd, hemp2, ih,
            List.filter_cons, List.range'_succ]
        · simp [preSummary, hsum2, parseLinesAux, hemp, hhd, hemp2, ih,
            List.filter_cons, List.range'_succ]

/-- Every header record's fingerprint is `headerHash` of its own text. -/
theorem parseLinesAux_header_hash (lines : List Str) :
    ∀ (lvl : LogLevel) (cat : Str) (idx : Nat) (e : LogEntry),
      e ∈ parseLinesAux lines lvl cat idx → e.IsHeader = true →
      e.ContentHash = headerHash e.FullText := by
  induction lines with
  | nil => intro lvl cat idx e hmem; simp [parseLinesAux] at hmem
  | cons l rest ih =>
    intro lvl cat idx e hmem hhdr
    by_cases hsum : containsSummary l = true
    · simp [parseLinesAux, hsum] at hmem
    · have hsum2 : containsSummary l = false := Bool.eq_false_iff.mpr hsum
      by_cases hemp : l = ([] : Str)
      · rw [parseLinesAux, if_neg (by simp [hsum2]), if_pos hemp] at hmem
        exact ih lvl cat idx e hmem hhdr
      · by_cases hhd : l.head? = some '['
        · rw [parseLinesAux, if_neg (by simp [hsum2]), if_neg hemp, if_pos hhd] at hmem
          rcases List.mem_cons.mp hmem with rfl | hmem2
          · rfl
          · exact ih _ _ _ e hmem2 hhdr
        · rw [parseLinesAux, if_neg (by simp [hsum2]), if_neg hemp, if_neg hhd] at hmem
          rcases List.mem_cons.mp hmem with rfl | hmem2
          · simp at hhdr
          · exact ih _ _ _ e hmem2 hhdr

/-- Shift of `prevHeaderIdx` across a cons. -/
theorem prevHeaderIdx_cons (x : LogEntry) (xs : List LogEntry) :
    ∀ i : Nat, prevHeaderIdx (x :: xs) (i + 1)
      = (match prevHeaderIdx xs i with
         | some j => some (j + 1)
         | none => if x.IsHeader then some 0 else none) := by
  intro i
  induction i with
  | zero => simp [prevHeaderIdx]
  | succ i ih =>
    rw [prevHeaderIdx]
    cases hx : xs[i]? with
    | none =>
      rw [show ((x :: xs)[i + 1]? = none) by simpa using hx]
      rw [ih]
      conv_rhs => rw [prevHeaderIdx, hx]
    | some e =>
      rw [show ((x :: xs)[i + 1]? = some e) by simpa using hx]
      cases he : e.IsHeader with
      | true =>
        simp only [he, if_true]
        conv_rhs => rw [prevHeaderIdx, hx]
        simp [he]
      | false =>
        simp only [he, Bool.false_eq_true, if_false]
        rw [ih]
        conv_rhs => rw [prevHeaderIdx, hx]
        simp [he]

/-- Continuation records inherit severity and category from the nearest
preceding header in the produced sequence; if none precedes, they carry
the current header context `(lvl, cat)` the loop was started with. -/
theorem parseLinesAux_inherit (lines : List Str) :
    ∀ (lvl : LogLevel) (cat : Str) (idx : Nat) (i : Nat) (e : LogEntry),
      (parseLinesAux lines lvl cat idx)[i]? = some e →
      e.IsHeader = false →
      (∀ j, prevHeaderIdx (parseLinesAux lines lvl cat idx) i = some j →
        ∃ h, (parseLinesAux lines lvl cat idx)[j]? = some h ∧ h.IsHeader = true
          ∧ e.Level = h.Level ∧ e.Category = h.Category)
      ∧ (prevHeaderIdx (parseLinesAux lines lvl cat idx) i = none →
        e.Level = lvl ∧ e.Category = cat) := by
  induction lines with
  | nil => intro lvl cat idx i e hget; simp [parseLinesAux] at hget
  | cons l rest ih =>
    intro lvl cat idx i e hget hcont
    by_cases hsum : containsSummary l = true
    · simp [parseLinesAux, hsum] at hget
    · have hsum2 : ¬(containsSummary l = true) := hsum
      by_cases hemp : l = ([] : Str)
      · have heq : parseLinesAux (l :: rest) lvl cat idx = parseLinesAux rest lvl cat idx := by
          rw [parseLinesAux, if_neg hsum2, if_pos hemp]
        rw [heq] at hget ⊢
        exact ih lvl cat idx i e hget hcont
      · by_cases hhd : l.head? = some '['
        · -- header line: output starts with a header entry
          have heq : parseLinesAux (l :: rest) lvl cat idx
              = { FullText := l, Category := detectCategory l, Level := detectLevel l,
                  ContentHash := headerHash l, IsHeader := true, LogIndex := idx }
                :: parseLinesAux rest (detectLevel l) (detectCategory l) (idx + 1) := by
            rw [parseLinesAux, if_neg hsum2, if_neg hemp, if_pos hhd]
          rw [heq] at hget ⊢
          cases i with
          | zero =>
            simp at hget
            rw [← hget] at hcont
            simp at hcont
          | succ i2 =>
            have hget2 : (parseLinesAux rest (detectLevel l) (detectCategory l) (idx + 1))[i2]?
                = some e := by simpa using hget
            have hih := ih (detectLevel l) (detectCategory l) (idx + 1) i2 e hget2 hcont
            rw [prevHeaderIdx_cons]
            cases hprev : prevHeaderIdx (parseLinesAux rest (detectLevel l) (detectCategory l) (idx + 1)) i2 with
            | some j =>
              constructor
              · intro j2 hj2
                simp only [hprev] at hj2
                rcases hih.1 j hprev with ⟨h, hh1, hh2, hh3, hh4⟩
                have : j2 = j + 1 := by injection hj2.symm
                subst this
                exact ⟨h, by simpa using hh1, hh2, hh3, hh4⟩
              · intro hnone
                simp [hprev] at hnone
            | none =>
              have hdef := hih.2 hprev
              constructor
              · intro j2 hj2
                simp only [hprev] at hj2
                have hj0 : j2 = 0 := by
                  simp at hj2
                  omega
                subst hj0
                exact ⟨{ FullText := l, Category := detectCategory l, Level := detectLevel l,
                         ContentHash := headerHash l, IsHeader := true, LogIndex := idx },
                       by simp, rfl, hdef.1, hdef.2⟩
              · intro hnone
                simp [hprev] at hnone
        · -- continuation line
          have heq : parseLinesAux (l :: rest) lvl cat idx
              = { FullText := indentMarker ++ l, Category := cat, Level := lvl,
                  ContentHash := 0, IsHeader := false, LogIndex := idx }
                :: parseLinesAux rest lvl cat (idx + 1) := by
            rw [parseLinesAux, if_neg hsum2, if_neg hemp, if_neg hhd]
          rw [heq] at hget ⊢
          cases i with
          | zero =>
            simp at hget
            constructor
            · intro j hj
              simp [prevHeaderIdx] at hj
            · intro _
              rw [← hget]
              exact ⟨rfl, rfl⟩
          | succ i2 =>
            have hget2 : (parseLinesAux rest lvl cat (idx + 1))[i2]? = some e := by
              simpa using hget
            have hih := ih lvl cat (idx + 1) i2 e hget2 hcont
            rw [prevHeaderIdx_cons]
            cases hprev : prevHeaderIdx (parseLinesAux rest lvl cat (idx + 1)) i2 with
            | some j =>
              constructor
              · intro j2 hj2
                simp only [hprev] at hj2
                rcases hih.1 j hprev with ⟨h, hh1, hh2, hh3, hh4⟩
                have : j2 = j + 1 := by injection hj2.symm
                subst this
                exact ⟨h, by simpa using hh1, hh2, hh3, hh4⟩
              · intro hnone
                simp [hprev] at hnone
            | none =>
              have hdef := hih.2 hprev
              constructor
              · intro j2 hj2
                simp [hprev] at hj2
              · intro _
                exact hdef

/-! ### Filter monotonicity lemmas -/

/-- The standard filter cascade as a conjunction of the five checks. -/
theorem passesFilters_iff (se sw sd : Bool) (c s : Str) (e : LogEntry) :
    passesFilters se sw sd c s e = true ↔
      (¬(e.Level = LogLevel.Error ∧ se = false)
       ∧ ¬(e.Level = LogLevel.Warning ∧ sw = false)
       ∧ ¬(e.Level = LogLevel.Display ∧ sd = false)
       ∧ ¬(c ≠ allCat ∧ e.Category ≠ c)
       ∧ ¬(s ≠ [] ∧ containsSubstr (toLowerStr e.FullText) s = false)) := by
  unfold passesFilters
  split_ifs with h1 h2 h3 h4 h5 <;> simp_all

theorem passes_off_error (se sw sd : Bool) (c s : Str) (e : LogEntry)
    (h : passesFilters false sw sd c s e = true) : passesFilters se sw sd c s e = true := by
  rw [passesFilters_iff] at h ⊢
  refine ⟨?_, h.2.1, h.2.2.1, h.2.2.2.1, h.2.2.2.2⟩
  rintro ⟨hl, _⟩
  exact h.1 ⟨hl, rfl⟩

theorem passes_off_warning (se sw sd : Bool) (c s : Str) (e : LogEntry)
    (h : passesFilters se false sd c s e = true) : passesFilters se sw sd c s e = true := by
  rw [passesFilters_iff] at h ⊢
  refine ⟨h.1, ?_, h.2.2.1, h.2.2.2.1, h.2.2.2.2⟩
  rintro ⟨hl, _⟩
  exact h.2.1 ⟨hl, rfl⟩

theorem passes_off_display (se sw sd : Bool) (c s : Str) (e : LogEntry)
    (h : passesFilters se sw false c s e = true) : passesFilters se sw sd c s e = true := by
  rw [passesFilters_iff] at h ⊢
  refine ⟨h.1, h.2.1, ?_, h.2.2.2.1, h.2.2.2.2⟩
  rintro ⟨hl, _⟩
  exact h.2.2.1 ⟨hl, rfl⟩

theorem passes_cat_all (se sw sd : Bool) (c s : Str) (e : LogEntry)
    (h : passesFilters se sw sd c s e = true) : passesFilters se sw sd allCat s e = true := by
  rw [passesFilters_iff] at h ⊢
  exact ⟨h.1, h.2.1, h.2.2.1, by simp, h.2.2.2.2⟩

theorem passes_search_empty (se sw sd : Bool) (c s : Str) (e : LogEntry)
    (h : passesFilters se sw sd c s e = true) :
    passesFilters se sw sd c ([] : Str) e = true := by
  rw [passesFilters_iff] at h ⊢
  exact ⟨h.1, h.2.1, h.2.2.1, h.2.2.2.1, by simp⟩

theorem passAt_mono {se sw sd se2 sw2 sd2 : Bool} {c s c2 s2 : Str}
    (logs : List LogEntry)
    (hmono : ∀ e, passesFilters se2 sw2 sd2 c2 s2 e = true
      → passesFilters se sw sd c s e = true) (i : Nat) :
    passAt se2 sw2 sd2 c2 s2 logs i = true → passAt se sw sd c s logs i = true := by
  unfold passAt
  cases logs[i]? with
  | none => simp
  | some e => exact hmono e

theorem keepIdx_mono_pass {se sw sd se2 sw2 sd2 : Bool} {c s c2 s2 : Str}
    {showDup : Bool} (logs : List LogEntry)
    (hmono : ∀ e, passesFilters se2 sw2 sd2 c2 s2 e = true
      → passesFilters se sw sd c s e = true) :
    ∀ i, keepIdx se2 sw2 sd2 c2 s2 showDup logs i = true
      → keepIdx se sw sd c s showDup logs i = true := by
  intro i h
  unfold keepIdx at h ⊢
  rcases Bool.and_eq_true_iff.mp h with ⟨h1, h2⟩
  exact Bool.and_eq_true_iff.mpr ⟨h1, passAt_mono logs hmono i h2⟩

theorem keepIdx_mono_dup (se sw sd : Bool) (c s : Str) (showDup : Bool)
    (logs : List LogEntry) :
    ∀ i, keepIdx se sw sd c s false logs i = true
      → keepIdx se sw sd c s showDup logs i = true := by
  intro i h
  unfold keepIdx at h ⊢
  rcases Bool.and_eq_true_iff.mp h with ⟨h1, h2⟩
  refine Bool.and_eq_true_iff.mpr ⟨?_, h2⟩
  cases showDup with
  | true => rfl
  | false => exact h1

/-! ### Concrete example data (the worked example of the spec) -/

def exL0 : Str := "[0] LogCook: Error: bad texture".toList

def exL1 : Str := "   continuation info".toList

def exL2 : Str := "[1] LogCook: Error: bad texture".toList

def exLines : List Str := [exL0, exL1, exL2]

def exLogs : List LogEntry := parseLines exLines

def exFilters : FilterState :=
  { ShowErrors := true, ShowWarnings := true, ShowDisplay := true,
    SearchBuffer := [], SelectedCategory := allCat, ShowDuplicates := true }

def exFiltersNoDup : FilterState := { exFilters with ShowDuplicates := false }

def exFiltersC9 : FilterState :=
  { exFilters with ShowErrors := false, ShowDuplicates := false }

def exContEntry : LogEntry :=
  { FullText := indentMarker ++ exL1, Category := generalCat,
    Level := LogLevel.Display, ContentHash := 0, IsHeader := false, LogIndex := 0 }

/-! ### Claim theorems -/

/-- C1, counterexample: on the header line `"[1]xLogFoo: msg"` the first
occurrence of `"Log"` is at position 4 and is preceded by `'x'`, so the
preceding-character guard fails and no category is detected (`"General"`);
yet the fingerprint is the hash of the substring from position 4, not the
hash of the entire line, refuting the claim's no-category case. -/
theorem fingerprint_guard_counterexample :
    findSubstr ("[1]xLogFoo: msg".toList) ("Log".toList) = some 4
    ∧ ("[1]xLogFoo: msg".toList)[3]? = some 'x'
    ∧ detectCategory ("[1]xLogFoo: msg".toList) = generalCat
    ∧ (parseLines ["[1]xLogFoo: msg".toList]).map (fun e => e.ContentHash)
        = [hashStr (("[1]xLogFoo: msg".toList).drop 4)]
    ∧ hashStr (("[1]xLogFoo: msg".toList).drop 4)
        ≠ hashStr ("[1]xLogFoo: msg".toList) := by
  decide

/-- C1, amended: every header record's fingerprint is the deterministic
hash of the substring starting at the first occurrence of `"Log"`
whenever `"Log"` occurs in the line — regardless of the
preceding-character guard or of a following `':'` — and the hash of the
entire line exactly when `"Log"` is absent. -/
theorem fingerprint_from_log_position :
    (∀ (lines : List Str) (e : LogEntry), e ∈ parseLines lines → e.IsHeader = true →
      e.ContentHash = headerHash e.FullText)
    ∧ (∀ (line : Str) (i : Nat), findSubstr line ("Log".toList) = some i →
      headerHash line = hashStr (line.drop i))
    ∧ (∀ line : Str, findSubstr line ("Log".toList) = none →
      headerHash line = hashStr line) := by
  refine ⟨?_, ?_, ?_⟩
  · intro lines e hmem hhdr
    exact parseLinesAux_header_hash lines LogLevel.Display generalCat 0 e hmem hhdr
  · intro line i h
    unfold headerHash
    rw [h]
  · intro line h
    unfold headerHash
    rw [h]

theorem fingerprint_from_log_position_witness :
    headerHash ("[1]xLogFoo: msg".toList)
      = hashStr (("[1]xLogFoo: msg".toList).drop 4) :=
  fingerprint_from_log_position.2.1 ("[1]xLogFoo: msg".toList) 4 (by decide)

/-- C2, code bug: after a failed open, `LoadFile` has cleared the record
sequence and reset the category set to the `"All"` sentinel, but it
returns before `ApplyFilters`, so `FilteredIndices` keeps the stale view
of the previously loaded file ([0] here) instead of showing no logs —
those indices now point past the end of the cleared `AllLogs`. -/
theorem loadFile_unreadable_stale_view :
    (loadFile (loadFile initState (some [exL0])) none).AllLogs = []
    ∧ (loadFile (loadFile initState (some [exL0])) none).UniqueCategories
        = ({allCat} : Finset Str)
    ∧ (loadFile initState (some [exL0])).FilteredIndices = [0]
    ∧ (loadFile (loadFile initState (some [exL0])) none).FilteredIndices = [0] := by
  decide

/-- C3: with duplicate suppression enabled (`ShowDuplicates = false`),
`computeView` selects exactly the records that are not excluded by the
duplicate rule (`dupSkippedSpec`: a header with an earlier equal
fingerprint, or a continuation whose nearest preceding header is such a
duplicate) and that pass the standard filters; with it disabled
(`ShowDuplicates = true`), no record is excluded by the duplicate rule:
the view is exactly the standard filters applied to every record. -/
theorem duplicate_suppression_characterization (logs : List LogEntry) (fs : FilterState) :
    (fs.ShowDuplicates = false →
      computeView logs fs
        = (List.range logs.length).filter
            (fun i => !dupSkippedSpec logs i
              && passAt fs.ShowErrors fs.ShowWarnings fs.ShowDisplay
                  fs.SelectedCategory (toLowerStr fs.SearchBuffer) logs i))
    ∧ (fs.ShowDuplicates = true →
      computeView logs fs
        = (List.range logs.length).filter
            (passAt fs.ShowErrors fs.ShowWarnings fs.ShowDisplay
              fs.SelectedCategory (toLowerStr fs.SearchBuffer) logs)) := by
  constructor
  · intro hdup
    rw [computeView_eq_filter]
    apply List.filter_congr
    intro i _
    simp [keepIdx, hdup]
  · intro hdup
    rw [computeView_eq_filter]
    apply List.filter_congr
    intro i _
    simp [keepIdx, hdup]

theorem duplicate_suppression_characterization_witness :
    exFiltersNoDup.ShowDuplicates = false
    ∧ computeView exLogs exFiltersNoDup
        = (List.range exLogs.length).filter
            (fun i => !dupSkippedSpec exLogs i
              && passAt exFiltersNoDup.ShowErrors exFiltersNoDup.ShowWarnings
                  exFiltersNoDup.ShowDisplay exFiltersNoDup.SelectedCategory
                  (toLowerStr exFiltersNoDup.SearchBuffer) exLogs i)
    ∧ computeView exLogs exFiltersNoDup = [0, 1] :=
  ⟨rfl, (duplicate_suppression_characterization exLogs exFiltersNoDup).1 rfl, by decide⟩

/-- C4: ingestion reads nothing past the first line containing the
summary marker, and the `LogIndex` values of the produced records are
exactly `0..k-1` where `k` is the number of non-blank lines before that
marker — strictly increasing with no gaps, blank lines skipped without
advancing the index. -/
theorem sequenceIndex_contiguous (lines : List Str) :
    parseLines lines = parseLines (preSummary lines)
    ∧ (parseLines lines).map (fun e => e.LogIndex)
        = List.range ((preSummary lines).filter (fun l => !l.isEmpty)).length := by
  constructor
  · exact (parseLinesAux_preSummary lines LogLevel.Display generalCat 0).symm
  · rw [List.range_eq_range']
    exact parseLinesAux_map_index lines LogLevel.Display generalCat 0

/-- C5: every continuation record produced by `parseLines` carries the
severity and category of the nearest preceding header record in the
sequence; when no header precedes it, it carries the defaults
(`Display`, i.e. the spec's `Info`, and `"General"`). -/
theorem continuation_inherits (lines : List Str) (i : Nat) (e : LogEntry)
    (hget : (parseLines lines)[i]? = some e) (hcont : e.IsHeader = false) :
    (∀ j, prevHeaderIdx (parseLines lines) i = some j →
      ∃ h, (parseLines lines)[j]? = some h ∧ h.IsHeader = true
        ∧ e.Level = h.Level ∧ e.Category = h.Category)
    ∧ (prevHeaderIdx (parseLines lines) i = none →
      e.Level = LogLevel.Display ∧ e.Category = generalCat) :=
  parseLinesAux_inherit lines LogLevel.Display generalCat 0 i e hget hcont

theorem continuation_inherits_witness :
    exContEntry.Level = LogLevel.Display ∧ exContEntry.Category = generalCat :=
  (continuation_inherits [exL1] 0 exContEntry (by decide) (by decide)).2 (by decide)

/-- C6: each single filter change that the claim lists — turning one
severity toggle off, narrowing the category from `"All"` to any specific
category, making the empty search non-empty, or enabling duplicate
suppression — yields a visible-index sequence that is a sublist (ordered
subset) of the one computed before the change. -/
theorem filters_conjunctive_shrink (logs : List LogEntry) (fs : FilterState) :
    List.Sublist (computeView logs { fs with ShowErrors := false }) (computeView logs fs)
    ∧ List.Sublist (computeView logs { fs with ShowWarnings := false }) (computeView logs fs)
    ∧ List.Sublist (computeView logs { fs with ShowDisplay := false }) (computeView logs fs)
    ∧ (fs.SelectedCategory = allCat → ∀ c : Str,
        List.Sublist (computeView logs { fs with SelectedCategory := c }) (computeView logs fs))
    ∧ (fs.SearchBuffer = ([] : Str) → ∀ s : Str,
        List.Sublist (computeView logs { fs with SearchBuffer := s }) (computeView logs fs))
    ∧ List.Sublist (computeView logs { fs with ShowDuplicates := false }) (computeView logs fs) := by
  refine ⟨?_, ?_, ?_, ?_, ?_, ?_⟩
  · rw [computeView_eq_filter, computeView_eq_filter]
    exact List.monotone_filter_right _
      (keepIdx_mono_pass logs (fun e h => passes_off_error _ _ _ _ _ _ h))
  · rw [computeView_eq_filter, computeView_eq_filter]
    exact List.monotone_filter_right _
      (keepIdx_mono_pass logs (fun e h => passes_off_warning _ _ _ _ _ _ h))
  · rw [computeView_eq_filter, computeView_eq_filter]
    exact List.monotone_filter_right _
      (keepIdx_mono_pass logs (fun e h => passes_off_display _ _ _ _ _ _ h))
  · intro hAll c
    rw [computeView_eq_filter, computeView_eq_filter]
    refine List.monotone_filter_right _
      (keepIdx_mono_pass logs (fun e h => ?_))
    rw [hAll]
    exact passes_cat_all _ _ _ _ _ e h
  · intro hs s
    rw [computeView_eq_filter, computeView_eq_filter]
    refine List.monotone_filter_right _
      (keepIdx_mono_pass logs (fun e h => ?_))
    rw [hs]
    exact passes_search_empty _ _ _ _ _ e h
  · rw [computeView_eq_filter, computeView_eq_filter]
    exact List.monotone_filter_right _ (keepIdx_mono_dup _ _ _ _ _ _ logs)

theorem filters_conjunctive_shrink_witness :
    List.Sublist (computeView exLogs { exFilters with SelectedCategory := "LogCook".toList })
      (computeView exLogs exFilters)
    ∧ List.Sublist (computeView exLogs { exFilters with SearchBuffer := "error".toList })
      (computeView exLogs exFilters) :=
  ⟨(filters_conjunctive_shrink exLogs exFilters).2.2.2.1 rfl ("LogCook".toList),
   (filters_conjunctive_shrink exLogs exFilters).2.2.2.2.1 rfl ("error".toList)⟩

/-- C7: the view depends on the search string only through its
lower-casing (the code lower-cases both the needle and each record's
display text), so any two search strings with equal case-folding — in
particular `"error"` and `"ERROR"` — produce identical views. -/
theorem search_case_insensitive :
    (∀ (logs : List LogEntry) (fs : FilterState) (s1 s2 : Str),
      toLowerStr s1 = toLowerStr s2 →
      computeView logs { fs with SearchBuffer := s1 }
        = computeView logs { fs with SearchBuffer := s2 })
    ∧ (∀ (logs : List LogEntry) (fs : FilterState),
      computeView logs { fs with SearchBuffer := "error".toList }
        = computeView logs { fs with SearchBuffer := "ERROR".toList }) := by
  have hmain : ∀ (logs : List LogEntry) (fs : FilterState) (s1 s2 : Str),
      toLowerStr s1 = toLowerStr s2 →
      computeView logs { fs with SearchBuffer := s1 }
        = computeView logs { fs with SearchBuffer := s2 } := by
    intro logs fs s1 s2 h
    unfold computeView
    dsimp only
    rw [h]
  exact ⟨hmain, fun logs fs => hmain logs fs _ _ (by decide)⟩

theorem search_case_insensitive_witness :
    computeView exLogs { exFilters with SearchBuffer := "error".toList }
      = computeView exLogs { exFilters with SearchBuffer := "ERROR".toList } :=
  search_case_insensitive.1 exLogs exFilters ("error".toList) ("ERROR".toList) (by decide)

/-- C8: for a focus index `f < n` the context window holds exactly the
raw indices from `max(0, f-5)` to `min(n-1, f+5)` inclusive, in strictly
increasing order; in particular `f = 3, n = 10` gives `0..8` and
`f = 0, n = 10` gives `0..5`. (On `Nat`, `f - 5` is `max(0, f-5)`.) -/
theorem context_window_clamped (n f : Nat) (hf : f < n) :
    (∀ i, i ∈ contextIndices n f ↔ f - 5 ≤ i ∧ i ≤ min (n - 1) (f + 5))
    ∧ List.Pairwise (· < ·) (contextIndices n f)
    ∧ contextIndices 10 3 = [0, 1, 2, 3, 4, 5, 6, 7, 8]
    ∧ contextIndices 10 0 = [0, 1, 2, 3, 4, 5] := by
  refine ⟨?_, ?_, by decide, by decide⟩
  · intro i
    unfold contextIndices
    rw [List.mem_range'_1]
    omega
  · unfold contextIndices
    exact List.pairwise_lt_range' _ _ 1 (by omega)

theorem context_window_clamped_witness :
    contextIndices 10 3 = [0, 1, 2, 3, 4, 5, 6, 7, 8] :=
  (context_window_clamped 10 3 (by decide)).2.2.1

/-- C9: with duplicate suppression enabled, a later header carrying the
same fingerprint as any earlier header is excluded from the view — with
no assumption that the earlier occurrence itself passed the severity,
category or search filters, because the loop records fingerprints before
those filters run. -/
theorem dup_excluded_regardless_of_filters (logs : List LogEntry) (fs : FilterState)
    (i j hsh : Nat) (hdup : fs.ShowDuplicates = false) (hij : i < j)
    (hhi : headerHashAt logs i = some hsh) (hhj : headerHashAt logs j = some hsh) :
    j ∉ computeView logs fs := by
  rw [computeView_eq_filter]
  intro hmem
  rcases List.mem_filter.mp hmem with ⟨_, hkeep⟩
  unfold headerHashAt at hhj
  rcases hgj : logs[j]? with _ | e
  · rw [hgj] at hhj
    simp at hhj
  · rw [hgj] at hhj
    rcases hej : e.IsHeader with _ | _
    · simp [hej] at hhj
    · simp [hej] at hhj
      have hdupj : isDupHeader logs j = true := by
        rw [isDupHeader_iff hgj hej]
        exact ⟨i, hij, by rw [hhi, hhj]⟩
      have hspec : dupSkippedSpec logs j = true := by
        simp [dupSkippedSpec, hgj, hej, hdupj]
      rw [keepIdx, hdup, hspec] at hkeep
      simp at hkeep

theorem dup_excluded_regardless_of_filters_witness :
    (2 : Nat) ∉ computeView exLogs exFiltersC9
    ∧ (0 : Nat) ∉ computeView exLogs exFiltersC9 :=
  ⟨dup_excluded_regardless_of_filters exLogs exFiltersC9 0 2 (headerHash exL0)
    rfl (by decide) (by decide) (by decide),
   by decide⟩

/-- C10: loading a file replaces the record sequence and the
distinct-category set with those of the new file only, but the
per-severity counters are never reset: each load adds the new file's
per-severity counts onto the existing counters, so after two successive
loads (from the fresh initial state) each counter is the sum over both
files. -/
theorem levels_count_accumulates (s : LogViewerState) (f1 f2 : List Str) (lvl : LogLevel) :
    (loadFile s (some f1)).LevelsCount lvl
        = s.LevelsCount lvl + countLevels (parseLines f1) lvl
    ∧ (loadFile (loadFile s (some f1)) (some f2)).LevelsCount lvl
        = s.LevelsCount lvl + countLevels (parseLines f1) lvl
          + countLevels (parseLines f2) lvl
    ∧ (loadFile (loadFile initState (some f1)) (some f2)).LevelsCount lvl
        = countLevels (parseLines f1) lvl + countLevels (parseLines f2) lvl
    ∧ (loadFile (loadFile s (some f1)) (some f2)).AllLogs = parseLines f2
    ∧ (loadFile (loadFile s (some f1)) (some f2)).UniqueCategories
        = insert allCat ((parseLines f2).map (fun e => e.Category)).toFinset := by
  refine ⟨rfl, rfl, ?_, rfl, rfl⟩
  show (fun l => (0 : Nat) + countLevels (parseLines f1) l) lvl + countLevels (parseLines f2) lvl
    = countLevels (parseLines f1) lvl + countLevels (parseLines f2) lvl
  simp

end UnrealLogsReader
